import Mathlib

/-!
Shallow embedding of the workflow engine in `src/app/engine.py`
(class `WorkflowEngine`: `run_workflow` and `_evaluate_condition`),
together with proofs of the behavioural claims about it.

Modelling conventions:
* Python dictionaries with string keys are association lists
  (`St := List (String × Value)`) with first-match lookup; `dict.update`
  replaces an existing binding in place, otherwise appends (insertion
  order is preserved, as in CPython).
* Dynamically typed Python values that the claims exercise are modelled
  by the inductive `Value` (integers, strings, booleans, `None`).
* A Python function that may raise is a Lean function returning
  `HandlerResult` (either a returned value or a raised message).
* Computations of the engine that may let an exception escape (the
  comparison operators in `_evaluate_condition` raise `TypeError` on
  non-comparable operands, and that call site is outside any `try`)
  live in `Except String`; `Except.error` marks an exception that
  propagates out of `run_workflow` to its caller.
* The `while` loop of `run_workflow` is bounded by
  `iteration < max_iterations` with `iteration` incremented at the top
  of every round, so it performs at most `max_iterations` rounds; the
  recursion is driven by the fuel `max_iterations - iteration`, and the
  running value of `iteration` is threaded explicitly (the loop entered
  with fuel `f` and counter `it` behaves like the source loop with
  `max_iterations = it + f`).
* Timestamps (`datetime.now().isoformat()`) are the only field of a log
  entry not modelled: no claim mentions them and they carry no
  control-flow information.
-/

namespace WorkflowEngine

/-- A dynamically typed Python value as far as the engine inspects one:
integers, strings, booleans and `None`. -/
inductive Value where
  | int (n : Int)
  | str (s : String)
  | bool (b : Bool)
  | null
deriving DecidableEq, Repr

/-- The state bag: a string-keyed dictionary, kept as an association list
with first-match lookup. -/
abbrev St := List (String × Value)

/-- Python `key in dict` / `dict[key]` combined: first binding of `key`. -/
def lookupSt : St → String → Option Value
  | [], _ => none
  | (k, v) :: rest, key => if k = key then some v else lookupSt rest key

/-- One key/value write of `dict.update`: replace the existing binding of
`k` in place, otherwise append `(k, v)` at the end. -/
def setKey : St → String → Value → St
  | [], k, v => [(k, v)]
  | (k', v') :: rest, k, v =>
      if k' = k then (k, v) :: rest else (k', v') :: setKey rest k v

/-- `state.update(result)` for a dict-valued `result`: fold the writes of
the result dict over the state, later keys overwriting earlier ones. -/
def updateAll (s : St) (kvs : List (String × Value)) : St :=
  kvs.foldl (fun a p => setKey a p.1 p.2) s

/-- Python treats `bool` as a subtype of `int` for comparisons:
`True` is `1` and `False` is `0`. Values with a numeric reading. -/
def toIntVal : Value → Option Int
  | .int n => some n
  | .bool b => some (if b then 1 else 0)
  | _ => none

/-- Python ordered comparison (`<`, `<=`, `>`, `>=`) of two values:
defined between numbers (booleans included) and between strings;
any other combination raises `TypeError`. -/
def pyOrdCmp (a b : Value) : Except String Ordering :=
  match toIntVal a, toIntVal b with
  | some x, some y => .ok (compare x y)
  | _, _ =>
    match a, b with
    | .str s, .str t => .ok (compare s t)
    | _, _ => .error "TypeError"

/-- Python `==` on two values: numeric values (booleans included) compare
by value, strings by content, `None` equals only `None`; any cross-type
comparison is `False` and never raises. -/
def pyEq (a b : Value) : Bool :=
  match toIntVal a, toIntVal b with
  | some x, some y => x = y
  | _, _ =>
    match a, b with
    | .str s, .str t => s = t
    | .null, .null => true
    | _, _ => false

/-- `WorkflowEngine._evaluate_condition(state, field, operator, value)`
(engine.py lines 120-146). `field` and `operator` are `Option String`
because `condition_def.get(...)` yields `None` when the key is absent;
a `None` field is not a key of the string-keyed state, so the
`field not in state` test returns false, and a `None` operator matches
no branch, falling through to the final `return False`. An ordered
comparison of non-comparable operands raises (`Except.error`); the call
site in `run_workflow` is outside any `try`, so the error propagates. -/
def _evaluate_condition (state : St) (field : Option String)
    (operator : Option String) (value : Value) : Except String Bool :=
  match field with
  | none => .ok false
  | some f =>
    match lookupSt state f with
    | none => .ok false
    | some state_value =>
      match operator with
      | none => .ok false
      | some op =>
        if op = ">=" then
          match pyOrdCmp state_value value with
          | .error msg => .error msg
          | .ok c => .ok (c != Ordering.lt)
        else if op = ">" then
          match pyOrdCmp state_value value with
          | .error msg => .error msg
          | .ok c => .ok (c == Ordering.gt)
        else if op = "<=" then
          match pyOrdCmp state_value value with
          | .error msg => .error msg
          | .ok c => .ok (c != Ordering.gt)
        else if op = "<" then
          match pyOrdCmp state_value value with
          | .error msg => .error msg
          | .ok c => .ok (c == Ordering.lt)
        else if op = "==" then .ok (pyEq state_value value)
        else if op = "!=" then .ok (!pyEq state_value value)
        else .ok false

/-- A node definition: `nodes[name]` is a dict whose `"function"` key
(absent allowed, via `node_def.get("function")`) names the handler. -/
structure NodeDef where
  function : Option String
deriving DecidableEq, Repr

/-- One entry of a conditional-edge group: `condition_def` with its
`field`, `operator`, `value` and `target` keys, each possibly absent
(`.get` yields `None`; for `value` a missing key and an explicit `None`
literal coincide, both are `Value.null`). -/
structure Condition where
  field : Option String
  operator : Option String
  value : Value
  target : Option String
deriving DecidableEq, Repr

/-- The value a handler returns when it does not raise: a dict (merged
into the state) or any other value (logged but not merged). -/
inductive RVal where
  | dict (entries : List (String × Value))
  | other (v : Value)
deriving DecidableEq, Repr

/-- Outcome of invoking a handler: a returned value or a raised
exception carrying its message. -/
inductive HandlerResult where
  | ok (r : RVal)
  | raise (msg : String)

/-- The status recorded on a log entry. `absent` models the entry of an
undeclared node: the source creates the entry with only
`iteration`/`node`/`timestamp` and, since `current_node in nodes` fails,
never assigns a `status` key before appending it. -/
inductive LogStatus where
  | success (output : RVal)
  | error (msg : String)
  | skipped (reason : String)
  | absent
deriving DecidableEq, Repr

/-- A log entry: a per-iteration entry, or the synthetic trailing
`{"warning": "Max iterations reached"}` dict appended after the loop. -/
inductive LogEntry where
  | entry (iteration : Nat) (node : String) (status : LogStatus)
  | warning
deriving DecidableEq, Repr

/-- The tool registry `self.tools` built by `register_tool`. -/
abbrev Tools := String → Option (St → HandlerResult)

/-- The `nodes` argument of `run_workflow`. -/
abbrev Nodes := String → Option NodeDef

/-- The `edges` argument: `edges.get(name)`. -/
abbrev Edges := String → Option String

/-- The `conditional_edges` argument: the conditions dict of a source
node, as the ordered list of its values (CPython dict iteration order is
insertion order, which is the declaration order of the conditions). -/
abbrev CondEdges := String → Option (List Condition)

/-- The `for condition_key, condition_def in conditions.items()` loop of
engine.py lines 96-104: evaluate the conditions in declared order, stop
at the first one that is true and take its `target` (`None` when the
condition has no `target` key, in which case the caller falls back to
the simple edges, exactly as `next_node` stays `None` in the source). -/
def routeConds (state : St) : List Condition → Except String (Option String)
  | [] => .ok none
  | c :: rest =>
    match _evaluate_condition state c.field c.operator c.value with
    | .error msg => .error msg
    | .ok b => if b then .ok c.target else routeConds state rest

/-- Next-node selection of engine.py lines 89-110: conditional edges of
the current node first (first satisfied condition wins); when none
matches, or the node has no group, `edges.get(current_node, "END")`. -/
def selectNext (state : St) (edges : Edges) (ce : CondEdges)
    (cur : String) : Except String String :=
  match ce cur with
  | some conds =>
    match routeConds state conds with
    | .error msg => .error msg
    | .ok (some t) => .ok t
    | .ok none => .ok ((edges cur).getD "END")
  | none => .ok ((edges cur).getD "END")

/-- The node-execution block of engine.py lines 59-85 for one iteration:
given the state, the current node and the (already incremented)
iteration number, produce the updated state, the log entry for this
iteration, and whether the error path was taken (`break`). An undeclared
node leaves the entry without a status; a declared node whose `function`
is absent, falsy (empty string, since the guard is
`if func_name and func_name in self.tools`) or unregistered gets status
`skipped`; otherwise the handler runs on the state: a raise gives status
`error` and halts, a dict result is merged, any other result is logged
unmerged, both with status `success`. -/
def execNode (tools : Tools) (nodes : Nodes) (st : St) (cur : String)
    (it : Nat) : St × LogEntry × Bool :=
  match nodes cur with
  | none => (st, .entry it cur .absent, false)
  | some node_def =>
    match node_def.function with
    | none => (st, .entry it cur (.skipped "No function defined"), false)
    | some func_name =>
      if func_name = "" then
        (st, .entry it cur (.skipped "No function defined"), false)
      else
        match tools func_name with
        | none => (st, .entry it cur (.skipped "No function defined"), false)
        | some handler =>
          match handler st with
          | .raise msg => (st, .entry it cur (.error msg), true)
          | .ok r =>
            let st' := match r with
              | .dict kvs => updateAll st kvs
              | .other _ => st
            (st', .entry it cur (.success r), false)

/-- The `while current_node != "END" and iteration < max_iterations`
loop of engine.py lines 42-110, with fuel = `max_iterations - iteration`
and the iteration counter threaded. Returns the state, the accumulated
log, the current node and the iteration count at loop exit, or
`Except.error` when a condition evaluation raises out of the loop. On
`START` (lines 52-57) the entry node is `edges.get("START")`; a missing
or falsy (empty string) value breaks out of the loop, otherwise the loop
continues at the entry node without executing or routing this iteration
(the `continue` also skips appending the stamped entry). A handler error
appends its entry and breaks (lines 78-82); otherwise the entry is
appended and the loop advances to `selectNext`'s choice. -/
def runAux (tools : Tools) (nodes : Nodes) (edges : Edges)
    (ce : CondEdges) :
    Nat → Nat → String → St → List LogEntry →
    Except String (St × List LogEntry × String × Nat)
  | fuel, it, cur, st, log =>
    if cur = "END" then .ok (st, log, cur, it)
    else
      match fuel with
      | 0 => .ok (st, log, cur, it)
      | f + 1 =>
        let it' := it + 1
        if cur = "START" then
          match edges "START" with
          | none => .ok (st, log, cur, it')
          | some t =>
            if t = "" then .ok (st, log, cur, it')
            else runAux tools nodes edges ce f it' t st log
        else
          match execNode tools nodes st cur it' with
          | (st', e, halt) =>
            if halt then .ok (st', log ++ [e], cur, it')
            else
              match selectNext st' edges ce cur with
              | .error msg => .error msg
              | .ok nxt => runAux tools nodes edges ce f it' nxt st' (log ++ [e])

/-- `WorkflowEngine.run_workflow(nodes, edges, conditional_edges,
initial_state, max_iterations=10)` (engine.py lines 16-118): run the
loop from `START` with iteration 0 on a copy of the initial state, then
append the `Max iterations reached` warning entry when
`iteration >= max_iterations` at loop exit (lines 112-116), and return
`(state, execution_log)`. `Except.error` is an exception escaping to the
caller (a `TypeError` from `_evaluate_condition`). -/
def run_workflow (tools : Tools) (nodes : Nodes) (edges : Edges)
    (ce : CondEdges) (initial_state : St) (max_iterations : Nat := 10) :
    Except String (St × List LogEntry) :=
  match runAux tools nodes edges ce max_iterations 0 "START" initial_state [] with
  | .error msg => .error msg
  | .ok (st, log, _, it) =>
    .ok (st, if max_iterations ≤ it then log ++ [.warning] else log)

/-- Mutation-aware rendering of the loop, used to state the frame claim
about the caller's dictionary. The source holds two dict objects: the
one bound to `initial_state` (the caller's) and the one bound to `state`
(line 37: `state = initial_state.copy()` creates a distinct object with
equal contents). The loop state here is the pair of their contents; the
only write in the loop, `state.update(result)` (line 74, inside
`execNode`), is applied to the `state` component alone, because `state`
names the copy and not the caller's object. -/
def runAuxMut (tools : Tools) (nodes : Nodes) (edges : Edges)
    (ce : CondEdges) :
    Nat → Nat → String → St × St → List LogEntry →
    Except String ((St × St) × List LogEntry × String × Nat)
  | fuel, it, cur, pair, log =>
    if cur = "END" then .ok (pair, log, cur, it)
    else
      match fuel with
      | 0 => .ok (pair, log, cur, it)
      | f + 1 =>
        let it' := it + 1
        if cur = "START" then
          match edges "START" with
          | none => .ok (pair, log, cur, it')
          | some t =>
            if t = "" then .ok (pair, log, cur, it')
            else runAuxMut tools nodes edges ce f it' t pair log
        else
          match execNode tools nodes pair.2 cur it' with
          | (st', e, halt) =>
            if halt then .ok ((pair.1, st'), log ++ [e], cur, it')
            else
              match selectNext st' edges ce cur with
              | .error msg => .error msg
              | .ok nxt =>
                runAuxMut tools nodes edges ce f it' nxt (pair.1, st') (log ++ [e])

/-- `run_workflow` in the mutation-aware rendering: the first component
of the result is the contents of the caller's `initial_state` dict after
the call returns (on an escaping exception the loop never wrote to it
either: every write targets the copy). -/
def run_workflow_mut (tools : Tools) (nodes : Nodes) (edges : Edges)
    (ce : CondEdges) (initial_state : St) (max_iterations : Nat := 10) :
    St × Except String (St × List LogEntry) :=
  match runAuxMut tools nodes edges ce max_iterations 0 "START"
      (initial_state, initial_state) [] with
  | .error msg => (initial_state, .error msg)
  | .ok (pair, log, _, it) =>
    (pair.1, .ok (pair.2, if max_iterations ≤ it then log ++ [.warning] else log))

/-- Does a log entry carry status `error`? -/
def isErrorEntry : LogEntry → Bool
  | .entry _ _ (.error _) => true
  | _ => false

/-- After any `error` entry, the only entries that may still follow are
synthetic `warning` entries: no node is visited after a handler error. -/
def errTail : List LogEntry → Prop
  | [] => True
  | e :: rest =>
      (isErrorEntry e = true → ∀ x ∈ rest, x = LogEntry.warning) ∧ errTail rest

/-- Every condition of every group evaluates without raising on every
state (for example because its operator is `==`, `!=` or unsupported, or
because its comparisons are always between comparable values). -/
def CondSafe (ce : CondEdges) : Prop :=
  ∀ n conds, ce n = some conds → ∀ c ∈ conds, ∀ st : St,
    ∃ b, _evaluate_condition st c.field c.operator c.value = Except.ok b

/-! Concrete fixtures used by witnesses and counterexamples. -/

/-- Handler incrementing the numeric state field `"field"` by 1. -/
def incHandler : St → HandlerResult := fun st =>
  match lookupSt st "field" with
  | some (.int n) => .ok (.dict [("field", .int (n + 1))])
  | _ => .raise "missing field"

/-- Registry holding only `increment`. -/
def toolsInc : Tools := fun name =>
  if name = "increment" then some incHandler else none

/-- Nodes `A` and `B`, both bound to `increment`. -/
def nodesAB : Nodes := fun name =>
  if name = "A" then some ⟨some "increment"⟩
  else if name = "B" then some ⟨some "increment"⟩
  else none

/-- Linear edges `START→A→B→END`. -/
def edgesLinear : Edges := fun name =>
  if name = "START" then some "A"
  else if name = "A" then some "B"
  else if name = "B" then some "END"
  else none

/-- No conditional edges at all. -/
def noCondEdges : CondEdges := fun _ => none

/-- Empty tool registry. -/
def noTools : Tools := fun _ => none

/-- Empty node set. -/
def noNodes : Nodes := fun _ => none

/-- Empty simple-edge mapping. -/
def noEdges : Edges := fun _ => none

/-- Handler that always raises. -/
def boomHandler : St → HandlerResult := fun _ => .raise "boom"

/-- Registry holding only the raising handler `boom`. -/
def toolsBoom : Tools := fun name =>
  if name = "boom" then some boomHandler else none

/-- Single node `A` bound to the raising handler. -/
def nodesBoom : Nodes := fun name =>
  if name = "A" then some ⟨some "boom"⟩ else none

/-- Edges holding only `START→A`. -/
def edgesStartA : Edges := fun name =>
  if name = "START" then some "A" else none

/-- Single node `A` declared without a `function` key. -/
def nodesSkipA : Nodes := fun name =>
  if name = "A" then some ⟨none⟩ else none

/-- Edges `START→A` and `A→END`. -/
def edgesAEnd : Edges := fun name =>
  if name = "START" then some "A"
  else if name = "A" then some "END"
  else none

/-- Edges `START→A` and the unconditional self-loop `A→A`. -/
def edgesSelfLoop : Edges := fun name =>
  if name = "START" then some "A"
  else if name = "A" then some "A"
  else none

/-- A conditional-edge group on `A` whose single condition compares the
state field `x` with a string literal under `>=`. -/
def ceCrossType : CondEdges := fun name =>
  if name = "A" then some [⟨some "x", some ">=", .str "s", some "B"⟩]
  else none

/-- Condition `score >= 5 → review`. -/
def condLow : Condition := ⟨some "score", some ">=", .int 5, some "review"⟩

/-- Condition `score >= 1 → approve`; any score satisfying `condLow`
also satisfies this one. -/
def condHigh : Condition := ⟨some "score", some ">=", .int 1, some "approve"⟩

/-- A conditional-edge group on `A` declaring `condLow` before
`condHigh`. -/
def ceTwo : CondEdges := fun name =>
  if name = "A" then some [condLow, condHigh] else none

/-! Helper lemmas shared by the claim proofs. -/

/-- With no fuel left (`iteration >= max_iterations`) the loop returns
its accumulated data unchanged. -/
theorem runAux_zero (tools : Tools) (nodes : Nodes) (edges : Edges)
    (ce : CondEdges) (it : Nat) (cur : String) (st : St)
    (log : List LogEntry) :
    runAux tools nodes edges ce 0 it cur st log = .ok (st, log, cur, it) := by
  rw [runAux]
  split <;> rfl

/-- One-step unfolding of the loop with fuel left. -/
theorem runAux_succ (tools : Tools) (nodes : Nodes) (edges : Edges)
    (ce : CondEdges) (f it : Nat) (cur : String) (st : St)
    (log : List LogEntry) :
    runAux tools nodes edges ce (f + 1) it cur st log =
      if cur = "END" then .ok (st, log, cur, it)
      else if cur = "START" then
        match edges "START" with
        | none => .ok (st, log, cur, it + 1)
        | some t =>
          if t = "" then .ok (st, log, cur, it + 1)
          else runAux tools nodes edges ce f (it + 1) t st log
      else
        match execNode tools nodes st cur (it + 1) with
        | (st', e, halt) =>
          if halt then .ok (st', log ++ [e], cur, it + 1)
          else
            match selectNext st' edges ce cur with
            | .error msg => .error msg
            | .ok nxt => runAux tools nodes edges ce f (it + 1) nxt st' (log ++ [e]) :=
  rfl

/-- Mirror of `runAux_zero` for the mutation-aware loop. -/
theorem runAuxMut_zero (tools : Tools) (nodes : Nodes) (edges : Edges)
    (ce : CondEdges) (it : Nat) (cur : String) (pair : St × St)
    (log : List LogEntry) :
    runAuxMut tools nodes edges ce 0 it cur pair log = .ok (pair, log, cur, it) := by
  rw [runAuxMut]
  split <;> rfl

/-- Mirror of `runAux_succ` for the mutation-aware loop. -/
theorem runAuxMut_succ (tools : Tools) (nodes : Nodes) (edges : Edges)
    (ce : CondEdges) (f it : Nat) (cur : String) (pair : St × St)
    (log : List LogEntry) :
    runAuxMut tools nodes edges ce (f + 1) it cur pair log =
      if cur = "END" then .ok (pair, log, cur, it)
      else if cur = "START" then
        match edges "START" with
        | none => .ok (pair, log, cur, it + 1)
        | some t =>
          if t = "" then .ok (pair, log, cur, it + 1)
          else runAuxMut tools nodes edges ce f (it + 1) t pair log
      else
        match execNode tools nodes pair.2 cur (it + 1) with
        | (st', e, halt) =>
          if halt then .ok ((pair.1, st'), log ++ [e], cur, it + 1)
          else
            match selectNext st' edges ce cur with
            | .error msg => .error msg
            | .ok nxt =>
              runAuxMut tools nodes edges ce f (it + 1) nxt (pair.1, st') (log ++ [e]) :=
  rfl

/-- The node-execution block always produces the entry of the current
iteration and node; it halts exactly on the `error` status. -/
theorem execNode_shape (tools : Tools) (nodes : Nodes) (st : St)
    (cur : String) (it : Nat) :
    ∃ st' s halt, execNode tools nodes st cur it = (st', .entry it cur s, halt) ∧
      (halt = false → isErrorEntry (.entry it cur s) = false) ∧
      (halt = true → ∃ msg, s = .error msg) := by
  cases hn : nodes cur with
  | none =>
    exact ⟨st, .absent, false, by simp [execNode, hn], fun _ => rfl, fun h => by cases h⟩
  | some nd =>
    cases hf : nd.function with
    | none =>
      exact ⟨st, .skipped "No function defined", false, by simp [execNode, hn, hf],
        fun _ => rfl, fun h => by cases h⟩
    | some fn =>
      by_cases hfn : fn = ""
      · exact ⟨st, .skipped "No function defined", false, by simp [execNode, hn, hf, hfn],
          fun _ => rfl, fun h => by cases h⟩
      · cases ht : tools fn with
        | none =>
          exact ⟨st, .skipped "No function defined", false,
            by simp [execNode, hn, hf, hfn, ht], fun _ => rfl, fun h => by cases h⟩
        | some handler =>
          cases hh : handler st with
          | raise msg =>
            refine ⟨st, .error msg, true, by simp [execNode, hn, hf, hfn, ht, hh],
              fun h => by simp at h, fun _ => ⟨msg, rfl⟩⟩
          | ok r =>
            cases r with
            | dict kvs =>
              exact ⟨updateAll st kvs, .success (.dict kvs), false,
                by simp [execNode, hn, hf, hfn, ht, hh], fun _ => rfl, fun h => by cases h⟩
            | other v =>
              exact ⟨st, .success (.other v), false,
                by simp [execNode, hn, hf, hfn, ht, hh], fun _ => rfl, fun h => by cases h⟩

/-- The iteration counter never decreases and grows by at most the fuel:
the loop body runs at most `fuel` more times. -/
theorem runAux_iter_bound (tools : Tools) (nodes : Nodes) (edges : Edges)
    (ce : CondEdges) :
    ∀ fuel it cur st log st2 log2 n2 it2,
      runAux tools nodes edges ce fuel it cur st log = .ok (st2, log2, n2, it2) →
      it ≤ it2 ∧ it2 ≤ it + fuel := by
  intro fuel
  induction fuel with
  | zero =>
    intro it cur st log st2 log2 n2 it2 h
    rw [runAux_zero] at h
    cases h
    omega
  | succ f ih =>
    intro it cur st log st2 log2 n2 it2 h
    rw [runAux_succ] at h
    split at h
    · cases h; omega
    · split at h
      · split at h
        · cases h; omega
        · split at h
          · cases h; omega
          · have := ih _ _ _ _ _ _ _ _ h; omega
      · rcases hex : execNode tools nodes st cur (it + 1) with ⟨st', e, halt⟩
        rw [hex] at h
        dsimp only at h
        split at h
        · cases h; omega
        · split at h
          · cases h
          · have := ih _ _ _ _ _ _ _ _ h; omega

/-- The loop only appends to the log; the appended entries are never the
synthetic warning, and only the last of them may carry status `error`
(the loop breaks right after recording an error). -/
theorem runAux_log_shape (tools : Tools) (nodes : Nodes) (edges : Edges)
    (ce : CondEdges) :
    ∀ fuel it cur st log st2 log2 n2 it2,
      runAux tools nodes edges ce fuel it cur st log = .ok (st2, log2, n2, it2) →
      ∃ ds, log2 = log ++ ds ∧ (∀ x ∈ ds, x ≠ LogEntry.warning) ∧
        (∀ x ∈ ds.dropLast, isErrorEntry x = false) := by
  intro fuel
  induction fuel with
  | zero =>
    intro it cur st log st2 log2 n2 it2 h
    rw [runAux_zero] at h
    cases h
    exact ⟨[], by simp, by simp, by simp⟩
  | succ f ih =>
    intro it cur st log st2 log2 n2 it2 h
    rw [runAux_succ] at h
    split at h
    · cases h; exact ⟨[], by simp, by simp, by simp⟩
    · split at h
      · split at h
        · cases h; exact ⟨[], by simp, by simp, by simp⟩
        · split at h
          · cases h; exact ⟨[], by simp, by simp, by simp⟩
          · exact ih _ _ _ _ _ _ _ _ h
      · obtain ⟨st'', s, halt', hex, hfa, hte⟩ := execNode_shape tools nodes st cur (it + 1)
        rw [hex] at h
        dsimp only at h
        by_cases hhalt : halt' = true
        · rw [if_pos hhalt] at h
          cases h
          refine ⟨[.entry (it + 1) cur s], rfl, ?_, by simp⟩
          intro x hx
          simp only [List.mem_singleton] at hx
          subst hx
          simp
        · rw [if_neg hhalt] at h
          have hfalse : halt' = false := by cases halt' <;> simp_all
          split at h
          · cases h
          · obtain ⟨ds', hlog, hwarn, herr⟩ := ih _ _ _ _ _ _ _ _ h
            refine ⟨.entry (it + 1) cur s :: ds', by simpa [List.append_assoc] using hlog, ?_, ?_⟩
            · intro x hx
              rcases List.mem_cons.mp hx with hx | hx
              · subst hx; simp
              · exact hwarn x hx
            · intro x hx
              cases ds' with
              | nil => simp at hx
              | cons z ds'' =>
                rw [List.dropLast_cons₂] at hx
                rcases List.mem_cons.mp hx with hx | hx
                · subst hx
                  exact hfa hfalse
                · exact herr x hx

/-- A list of warnings satisfies `errTail`. -/
theorem errTail_all_warning :
    ∀ W : List LogEntry, (∀ y ∈ W, y = LogEntry.warning) → errTail W := by
  intro W
  induction W with
  | nil => exact fun _ => trivial
  | cons x rest ih =>
    intro h
    exact ⟨fun _ y hy => h y (List.mem_cons_of_mem _ hy),
      ih fun y hy => h y (List.mem_cons_of_mem _ hy)⟩

/-- A list whose error entries occur only in last position, followed by
warnings only, satisfies `errTail`. -/
theorem errTail_append (ds W : List LogEntry)
    (hds : ∀ x ∈ ds.dropLast, isErrorEntry x = false)
    (hW : ∀ y ∈ W, y = LogEntry.warning) : errTail (ds ++ W) := by
  induction ds with
  | nil => simpa using errTail_all_warning W hW
  | cons x ds' ih =>
    have tail_ok : errTail (ds' ++ W) := by
      apply ih
      intro w hw
      apply hds
      cases ds' with
      | nil => simp at hw
      | cons z ds'' =>
        rw [List.dropLast_cons₂]
        exact List.mem_cons_of_mem _ hw
    refine ⟨?_, tail_ok⟩
    intro hxe y hy
    cases ds' with
    | nil => exact hW y (by simpa using hy)
    | cons z ds'' =>
      have hx := hds x (by rw [List.dropLast_cons₂]; exact List.mem_cons_self _ _)
      rw [hxe] at hx
      simp at hx

/-- First-match semantics of the condition loop: when every condition
before `c` evaluates false and `c` evaluates true, the loop stops at `c`
and yields its target. -/
theorem routeConds_first_true (st : St) :
    ∀ pre (c : Condition) post,
      (∀ c' ∈ pre, _evaluate_condition st c'.field c'.operator c'.value = .ok false) →
      _evaluate_condition st c.field c.operator c.value = .ok true →
      routeConds st (pre ++ c :: post) = .ok c.target := by
  intro pre
  induction pre with
  | nil =>
    intro c post _ hc
    simp [routeConds, hc]
  | cons p pre' ih =>
    intro c post hpre hc
    have hp := hpre p (List.mem_cons_self _ _)
    simp only [List.cons_append, routeConds, hp]
    exact ih c post (fun c' hc' => hpre c' (List.mem_cons_of_mem _ hc')) hc

/-- When every condition of the group evaluates false, the loop yields
no target. -/
theorem routeConds_all_false (st : St) :
    ∀ conds,
      (∀ c ∈ conds, _evaluate_condition st c.field c.operator c.value = .ok false) →
      routeConds st conds = .ok none := by
  intro conds
  induction conds with
  | nil => exact fun _ => rfl
  | cons c rest ih =>
    intro h
    have hc := h c (List.mem_cons_self _ _)
    simp only [routeConds, hc]
    exact ih fun c' hc' => h c' (List.mem_cons_of_mem _ hc')

/-- A group all of whose conditions evaluate without raising routes
without raising. -/
theorem routeConds_safe (st : St) :
    ∀ conds,
      (∀ c ∈ conds, ∀ s : St,
        ∃ b, _evaluate_condition s c.field c.operator c.value = Except.ok b) →
      ∃ o, routeConds st conds = .ok o := by
  intro conds
  induction conds with
  | nil => exact fun _ => ⟨none, rfl⟩
  | cons c rest ih =>
    intro h
    obtain ⟨b, hb⟩ := h c (List.mem_cons_self _ _) st
    cases b with
    | true => exact ⟨c.target, by simp [routeConds, hb]⟩
    | false =>
      obtain ⟨o, ho⟩ := ih fun c' hc' => h c' (List.mem_cons_of_mem _ hc')
      exact ⟨o, by simp [routeConds, hb, ho]⟩

/-- Under `CondSafe`, next-node selection never raises. -/
theorem selectNext_safe (st : St) (edges : Edges) (ce : CondEdges) (cur : String)
    (h : CondSafe ce) : ∃ t, selectNext st edges ce cur = .ok t := by
  cases hce : ce cur with
  | none => exact ⟨(edges cur).getD "END", by simp [selectNext, hce]⟩
  | some conds =>
    obtain ⟨o, ho⟩ := routeConds_safe st conds fun c hc s => h cur conds hce c hc s
    cases o with
    | none => exact ⟨(edges cur).getD "END", by simp [selectNext, hce, ho]⟩
    | some t => exact ⟨t, by simp [selectNext, hce, ho]⟩

/-- Under `CondSafe`, the loop always returns (no exception escapes). -/
theorem runAux_safe (tools : Tools) (nodes : Nodes) (edges : Edges)
    (ce : CondEdges) (hsafe : CondSafe ce) :
    ∀ fuel it cur st log,
      ∃ out, runAux tools nodes edges ce fuel it cur st log = .ok out := by
  intro fuel
  induction fuel with
  | zero =>
    intro it cur st log
    exact ⟨_, runAux_zero tools nodes edges ce it cur st log⟩
  | succ f ih =>
    intro it cur st log
    rw [runAux_succ]
    split
    · exact ⟨_, rfl⟩
    · split
      · cases hs : edges "START" with
        | none => exact ⟨_, rfl⟩
        | some t =>
          dsimp only
          by_cases ht : t = ""
          · exact ⟨(st, log, cur, it + 1), by simp [ht]⟩
          · rw [if_neg ht]
            exact ih (it + 1) t st log
      · rcases hex : execNode tools nodes st cur (it + 1) with ⟨st', e, halt⟩
        dsimp only
        cases halt with
        | true => exact ⟨(st', log ++ [e], cur, it + 1), rfl⟩
        | false =>
          obtain ⟨nxt, hsel⟩ := selectNext_safe st' edges ce cur hsafe
          rw [hsel]
          simp only [Bool.false_eq_true, if_false]
          exact ih (it + 1) nxt st' (log ++ [e])

/-- The mutation-aware loop is the pure loop with the caller's dict
carried along untouched. -/
theorem runAuxMut_eq (tools : Tools) (nodes : Nodes) (edges : Edges)
    (ce : CondEdges) :
    ∀ fuel it cur (o s : St) log,
      runAuxMut tools nodes edges ce fuel it cur (o, s) log =
        match runAux tools nodes edges ce fuel it cur s log with
        | .error msg => .error msg
        | .ok (st2, log2, n2, it2) => .ok ((o, st2), log2, n2, it2) := by
  intro fuel
  induction fuel with
  | zero =>
    intro it cur o s log
    rw [runAuxMut_zero, runAux_zero]
  | succ f ih =>
    intro it cur o s log
    rw [runAuxMut_succ, runAux_succ]
    by_cases hEnd : cur = "END"
    · simp [hEnd]
    · by_cases hSt : cur = "START"
      · simp only [hEnd, if_false, hSt, if_pos]
        cases hs : edges "START" with
        | none => rfl
        | some t =>
          by_cases ht : t = ""
          · simp [ht]
          · simp only [ht, if_false]
            exact ih (it + 1) t o s log
      · simp only [hEnd, hSt, if_false]
        rcases hex : execNode tools nodes s cur (it + 1) with ⟨st', e, halt⟩
        dsimp only
        cases halt with
        | true => rfl
        | false =>
          cases hsel : selectNext st' edges ce cur with
          | error msg => simp
          | ok nxt =>
            simp only [Bool.false_eq_true, if_false]
            exact ih (it + 1) nxt o st' (log ++ [e])

/-! The claims. -/

/-- C1: when the current node has a conditional-edge group, the
conditions are evaluated in declared order and the target of the first
condition whose predicate is true is selected (regardless of later
conditions); when no condition matches, or no group exists, the simple
edge for the node is used, and when no simple edge exists either, the
next node is `END` (the `getD "END"` default). -/
theorem C1_conditional_routing_first_match (st : St) (edges : Edges)
    (ce : CondEdges) (cur : String) :
    (∀ pre (c : Condition) post tgt,
      ce cur = some (pre ++ c :: post) →
      (∀ c' ∈ pre, _evaluate_condition st c'.field c'.operator c'.value = .ok false) →
      _evaluate_condition st c.field c.operator c.value = .ok true →
      c.target = some tgt →
      selectNext st edges ce cur = .ok tgt) ∧
    (∀ conds,
      ce cur = some conds →
      (∀ c ∈ conds, _evaluate_condition st c.field c.operator c.value = .ok false) →
      selectNext st edges ce cur = .ok ((edges cur).getD "END")) ∧
    (ce cur = none →
      selectNext st edges ce cur = .ok ((edges cur).getD "END")) := by
  refine ⟨?_, ?_, ?_⟩
  · intro pre c post tgt hce hpre hc htgt
    have hr := routeConds_first_true st pre c post hpre hc
    rw [htgt] at hr
    simp [selectNext, hce, hr]
  · intro conds hce hall
    have hr := routeConds_all_false st conds hall
    simp [selectNext, hce, hr]
  · intro hce
    simp [selectNext, hce]

/-- Witness for C1: with the group `[condLow, condHigh]` on `A` and
`score = 10` both conditions hold, and the first-declared one wins; with
`score = 0` neither holds and, with no simple edge, routing defaults to
`END`; a node without a group also defaults to `END`. -/
theorem C1_witness :
    selectNext [("score", Value.int 10)] noEdges ceTwo "A" = .ok "review" ∧
    selectNext [("score", Value.int 0)] noEdges ceTwo "A" = .ok "END" ∧
    selectNext [] noEdges noCondEdges "A" = .ok "END" := by
  refine ⟨?_, ?_, ?_⟩
  · exact (C1_conditional_routing_first_match [("score", Value.int 10)] noEdges ceTwo "A").1
      [] condLow [condHigh] "review" rfl (by intro c' hc'; simp at hc') rfl rfl
  · exact (C1_conditional_routing_first_match [("score", Value.int 0)] noEdges ceTwo "A").2.1
      [condLow, condHigh] rfl
      (by
        intro c hc
        simp only [List.mem_cons, List.not_mem_nil, or_false] at hc
        rcases hc with rfl | rfl <;> rfl)
  · exact (C1_conditional_routing_first_match [] noEdges noCondEdges "A").2.2 rfl

/-- C2 counterexample: with `maxIterations = 2` a handler that raises on
node `A` at the second (last allowed) iteration produces a log whose
final entry is the synthetic warning, not the error entry, so the
claim's "the log's final entry has status error" fails on this run. -/
theorem C2_counterexample :
    run_workflow toolsBoom nodesBoom edgesStartA noCondEdges [] 2 =
      .ok ([], [.entry 2 "A" (.error "boom"), .warning]) := rfl

/-- C2 (amended): when the handler of the current node raises, the loop
appends the error entry for that node and stops immediately, with no
further routing; in the returned log nothing follows an error entry
except the trailing synthetic warning (appended when the iteration cap
was reached simultaneously), and the run returns normally instead of
propagating the handler's exception. -/
theorem C2_error_stops (tools : Tools) (nodes : Nodes) (edges : Edges)
    (ce : CondEdges) :
    (∀ f it cur st log nd fn h msg,
      cur ≠ "END" → cur ≠ "START" →
      nodes cur = some nd → nd.function = some fn → fn ≠ "" →
      tools fn = some h → h st = .raise msg →
      runAux tools nodes edges ce (f + 1) it cur st log =
        .ok (st, log ++ [.entry (it + 1) cur (.error msg)], cur, it + 1)) ∧
    (∀ init M st log,
      run_workflow tools nodes edges ce init M = .ok (st, log) → errTail log) := by
  constructor
  · intro f it cur st log nd fn h msg hEnd hSt hn hf hfn ht hh
    rw [runAux_succ]
    simp [hEnd, hSt, execNode, hn, hf, hfn, ht, hh]
  · intro init M st log hrun
    unfold run_workflow at hrun
    cases hr : runAux tools nodes edges ce M 0 "START" init [] with
    | error msg => rw [hr] at hrun; cases hrun
    | ok out =>
      rcases out with ⟨st2, l, n, it⟩
      rw [hr] at hrun
      injection hrun with h
      injection h with h1 h2
      obtain ⟨ds, hl, hwarn, herr⟩ :=
        runAux_log_shape tools nodes edges ce M 0 "START" init [] st2 l n it hr
      rw [List.nil_append] at hl
      rw [← h2, hl]
      by_cases hM : M ≤ it
      · rw [if_pos hM]
        exact errTail_append ds [.warning] herr (by simp)
      · rw [if_neg hM]
        simpa using errTail_append ds [] herr (by simp)

/-- Witness for C2: the raising handler on `A` makes the loop stop with
exactly the error entry appended, and the full run's log satisfies
`errTail`. -/
theorem C2_witness :
    runAux toolsBoom nodesBoom edgesStartA noCondEdges 9 1 "A" [] [] =
      .ok ([], [LogEntry.entry 2 "A" (.error "boom")], "A", 2) ∧
    errTail [LogEntry.entry 2 "A" (.error "boom")] := by
  constructor
  · exact (C2_error_stops toolsBoom nodesBoom edgesStartA noCondEdges).1
      8 1 "A" [] [] ⟨some "boom"⟩ "boom" boomHandler "boom"
      (by decide) (by decide) rfl rfl (by decide) rfl rfl
  · exact (C2_error_stops toolsBoom nodesBoom edgesStartA noCondEdges).2
      [] 10 [] [LogEntry.entry 2 "A" (.error "boom")] rfl

/-- C3 counterexample: with `maxIterations = 2` and the graph
`START→A→END` (A skipped), the loop reaches `END` at the final allowed
iteration — yet the warning entry is still appended, because the source
tests `iteration >= max_iterations` without checking whether the loop
stopped at `END`; this falsifies the claim's "a run that reaches END
does not receive the warning entry". -/
theorem C3_counterexample :
    runAux noTools nodesSkipA edgesAEnd noCondEdges 2 0 "START" [] [] =
      .ok ([], [.entry 2 "A" (.skipped "No function defined")], "END", 2) ∧
    run_workflow noTools nodesSkipA edgesAEnd noCondEdges [] 2 =
      .ok ([], [.entry 2 "A" (.skipped "No function defined"), .warning]) :=
  ⟨rfl, rfl⟩

/-- C3 (amended): the synthetic warning entry is appended if and only if
the iteration count at loop exit reached `maxIterations` — including
runs that reach `END` exactly at the cap; the loop itself never records
a warning entry. -/
theorem C3_warning_iff_cap (tools : Tools) (nodes : Nodes) (edges : Edges)
    (ce : CondEdges) (init : St) (M : Nat) (st : St) (log : List LogEntry)
    (n : String) (it : Nat)
    (hr : runAux tools nodes edges ce M 0 "START" init [] = .ok (st, log, n, it)) :
    run_workflow tools nodes edges ce init M =
      .ok (st, if M ≤ it then log ++ [.warning] else log) ∧
    LogEntry.warning ∉ log ∧
    (LogEntry.warning ∈ (if M ≤ it then log ++ [.warning] else log) ↔ M ≤ it) := by
  obtain ⟨ds, hl, hwarn, -⟩ :=
    runAux_log_shape tools nodes edges ce M 0 "START" init [] st log n it hr
  rw [List.nil_append] at hl
  have hnw : LogEntry.warning ∉ log := by
    rw [hl]
    exact fun hmem => hwarn _ hmem rfl
  refine ⟨?_, hnw, ?_⟩
  · unfold run_workflow
    rw [hr]
  · by_cases hM : M ≤ it
    · simp [hM]
    · simp [hM, hnw]

/-- Witness for C3: the linear two-node run exits with iteration 3 under
cap 10, so no warning is appended and the returned log is the loop's
log. -/
theorem C3_witness :
    run_workflow toolsInc nodesAB edgesLinear noCondEdges [("field", Value.int 0)] 10 =
      .ok ([("field", Value.int 2)],
        if 10 ≤ 3 then
          [LogEntry.entry 2 "A" (.success (.dict [("field", Value.int 1)])),
           LogEntry.entry 3 "B" (.success (.dict [("field", Value.int 2)]))] ++ [.warning]
        else
          [LogEntry.entry 2 "A" (.success (.dict [("field", Value.int 1)])),
           LogEntry.entry 3 "B" (.success (.dict [("field", Value.int 2)]))]) ∧
    LogEntry.warning ∉
      [LogEntry.entry 2 "A" (.success (.dict [("field", Value.int 1)])),
       LogEntry.entry 3 "B" (.success (.dict [("field", Value.int 2)]))] ∧
    (LogEntry.warning ∈ (if 10 ≤ 3 then
        [LogEntry.entry 2 "A" (.success (.dict [("field", Value.int 1)])),
         LogEntry.entry 3 "B" (.success (.dict [("field", Value.int 2)]))] ++ [.warning]
      else
        [LogEntry.entry 2 "A" (.success (.dict [("field", Value.int 1)])),
         LogEntry.entry 3 "B" (.success (.dict [("field", Value.int 2)]))]) ↔ 10 ≤ 3) :=
  C3_warning_iff_cap toolsInc nodesAB edgesLinear noCondEdges
    [("field", Value.int 0)] 10 [("field", Value.int 2)]
    [LogEntry.entry 2 "A" (.success (.dict [("field", Value.int 1)])),
     LogEntry.entry 3 "B" (.success (.dict [("field", Value.int 2)]))] "END" 3 rfl

/-- C4 counterexample: a visited node absent from the nodes mapping does
not get a `skipped` entry — the source only assigns `status`/`reason`
inside the `if current_node in nodes` block, so an undeclared node's
entry is appended with no status at all (here `LogStatus.absent`, not
`LogStatus.skipped`), falsifying the claim for undeclared nodes. -/
theorem C4_counterexample :
    run_workflow noTools noNodes edgesStartA noCondEdges [] =
      .ok ([], [.entry 2 "A" .absent]) := rfl

/-- C4 (amended): a declared node whose handler name is absent, falsy or
unregistered gets a log entry with status `skipped` and reason
`No function defined`, and the run proceeds to routing; an undeclared
node also proceeds to routing, but its log entry carries no status
field rather than `skipped`. -/
theorem C4_skip_and_continue (tools : Tools) (nodes : Nodes) (edges : Edges)
    (ce : CondEdges) :
    (∀ f it cur st log nd,
      cur ≠ "END" → cur ≠ "START" → nodes cur = some nd →
      (nd.function = none ∨ nd.function = some "" ∨
        ∃ fn, nd.function = some fn ∧ tools fn = none) →
      runAux tools nodes edges ce (f + 1) it cur st log =
        (match selectNext st edges ce cur with
         | .error msg => .error msg
         | .ok nxt => runAux tools nodes edges ce f (it + 1) nxt st
             (log ++ [.entry (it + 1) cur (.skipped "No function defined")]))) ∧
    (∀ f it cur st log,
      cur ≠ "END" → cur ≠ "START" → nodes cur = none →
      runAux tools nodes edges ce (f + 1) it cur st log =
        (match selectNext st edges ce cur with
         | .error msg => .error msg
         | .ok nxt => runAux tools nodes edges ce f (it + 1) nxt st
             (log ++ [.entry (it + 1) cur .absent]))) := by
  constructor
  · intro f it cur st log nd hEnd hSt hn hcase
    rw [runAux_succ]
    rcases hcase with hf | hf | ⟨fn, hf, ht⟩
    · simp [hEnd, hSt, execNode, hn, hf]
    · simp [hEnd, hSt, execNode, hn, hf]
    · by_cases hfn : fn = ""
      · simp [hEnd, hSt, execNode, hn, hf, hfn]
      · simp [hEnd, hSt, execNode, hn, hf, hfn, ht]
  · intro f it cur st log hEnd hSt hn
    rw [runAux_succ]
    simp [hEnd, hSt, execNode, hn]

/-- Witness for C4: node `A` declared without a function records a
`skipped` entry and routes on; an undeclared `A` records a status-less
entry and routes on. -/
theorem C4_witness :
    (runAux noTools nodesSkipA edgesAEnd noCondEdges 2 1 "A" [] [] =
      (match selectNext [] edgesAEnd noCondEdges "A" with
       | .error msg => .error msg
       | .ok nxt => runAux noTools nodesSkipA edgesAEnd noCondEdges 1 2 nxt []
           [.entry 2 "A" (.skipped "No function defined")])) ∧
    (runAux noTools noNodes edgesStartA noCondEdges 2 1 "A" [] [] =
      (match selectNext [] edgesStartA noCondEdges "A" with
       | .error msg => .error msg
       | .ok nxt => runAux noTools noNodes edgesStartA noCondEdges 1 2 nxt []
           [.entry 2 "A" .absent])) := by
  constructor
  · exact (C4_skip_and_continue noTools nodesSkipA edgesAEnd noCondEdges).1
      1 1 "A" [] [] ⟨none⟩ (by decide) (by decide) rfl (Or.inl rfl)
  · exact (C4_skip_and_continue noTools noNodes edgesStartA noCondEdges).2
      1 1 "A" [] [] (by decide) (by decide) rfl

/-- C5 counterexample: a conditional edge comparing an integer state
value against a string literal with `>=` raises `TypeError` inside
`_evaluate_condition`, whose call site is outside the `try` block, so
the exception escapes `run_workflow` to its caller — refuting "never
terminates by raising an exception ... any state/literal value
combination". -/
theorem C5_counterexample :
    run_workflow noTools noNodes edgesStartA ceCrossType [("x", .int 1)] =
      .error "TypeError" := rfl

/-- C5 (amended): the run never raises to its caller — handler
exceptions, non-mapping handler results and unregistered handlers are
all conveyed through the returned log — provided every condition of
every conditional-edge group evaluates without raising on every state
(`CondSafe`), i.e. its ordered comparisons only ever meet two
numeric/boolean values or two strings; a cross-type ordered comparison
in a reached group escapes as an exception. -/
theorem C5_no_escape_when_conditions_safe (tools : Tools) (nodes : Nodes)
    (edges : Edges) (ce : CondEdges) (init : St) (M : Nat)
    (hsafe : CondSafe ce) :
    ∃ st log, run_workflow tools nodes edges ce init M = .ok (st, log) := by
  obtain ⟨out, hr⟩ := runAux_safe tools nodes edges ce hsafe M 0 "START" init []
  rcases out with ⟨st, log, n, it⟩
  refine ⟨st, if M ≤ it then log ++ [.warning] else log, ?_⟩
  unfold run_workflow
  rw [hr]

/-- Witness for C5: a graph with no conditional edges is `CondSafe`, so
its run returns normally. -/
theorem C5_witness :
    ∃ st log,
      run_workflow noTools noNodes noEdges noCondEdges [] 10 = .ok (st, log) :=
  C5_no_escape_when_conditions_safe noTools noNodes noEdges noCondEdges [] 10
    (fun n conds h => by simp [noCondEdges] at h)

/-- C6: the condition evaluator returns false whenever the referenced
field is absent from the state, for every operator (including absent or
unsupported ones) and every literal value. -/
theorem C6_missing_field_false (st : St) (fld : String) (op : Option String)
    (v : Value) (h : lookupSt st fld = none) :
    _evaluate_condition st (some fld) op v = .ok false := by
  simp [_evaluate_condition, h]

/-- Witness for C6: field `x` is not a key of the state, so a `>=`
comparison against a string literal still evaluates false without
raising. -/
theorem C6_witness :
    lookupSt [("other", Value.int 1)] "x" = none ∧
    _evaluate_condition [("other", Value.int 1)] (some "x") (some ">=") (.str "s") =
      .ok false :=
  ⟨rfl, C6_missing_field_false [("other", Value.int 1)] "x" (some ">=") (.str "s") rfl⟩

/-- C7 counterexample: with `maxIterations = 1` and no `START` edge the
single loop round is consumed by the failed `START` resolution, so the
post-loop check `iteration >= max_iterations` fires and the returned log
is `[warning]`, not empty — refuting the claim as universally stated. -/
theorem C7_counterexample :
    run_workflow noTools noNodes noEdges noCondEdges [("a", Value.int 0)] 1 =
      .ok ([("a", Value.int 0)], [.warning]) := rfl

/-- C7 (amended): a run whose edges mapping has no entry for `START`
terminates on the first iteration and returns the initial state
unchanged with an empty log, not as an error — provided
`maxIterations ≥ 2` (with `maxIterations ≤ 1` the state is still
unchanged but the max-iterations warning entry is appended). -/
theorem C7_no_start_edge (tools : Tools) (nodes : Nodes) (edges : Edges)
    (ce : CondEdges) (init : St) (M : Nat)
    (hstart : edges "START" = none) (hM : 2 ≤ M) :
    run_workflow tools nodes edges ce init M = .ok (init, []) := by
  obtain ⟨m, rfl⟩ : ∃ m, M = m + 1 := ⟨M - 1, by omega⟩
  have h1 : ¬(m + 1 ≤ 1) := by omega
  unfold run_workflow
  rw [runAux_succ]
  simp [hstart, h1]

/-- Witness for C7: the empty edge mapping with `maxIterations = 2`. -/
theorem C7_witness :
    run_workflow noTools noNodes noEdges noCondEdges [("a", Value.int 0)] 2 =
      .ok ([("a", Value.int 0)], []) :=
  C7_no_start_edge noTools noNodes noEdges noCondEdges [("a", Value.int 0)] 2
    rfl (by omega)

/-- C8: on the linear graph `START→A→B→END` whose two handlers each
increment the numeric field by 1, a run from `{field: 0}` with the
default `maxIterations` ends with `field = 2` and a log of exactly two
`success` entries. -/
theorem C8_linear_two_increments :
    run_workflow toolsInc nodesAB edgesLinear noCondEdges [("field", .int 0)] =
      .ok ([("field", .int 2)],
        [.entry 2 "A" (.success (.dict [("field", .int 1)])),
         .entry 3 "B" (.success (.dict [("field", .int 2)]))]) := rfl

/-- C9: the loop always terminates — the iteration counter never
decreases and increases by at most the remaining fuel, so a run from
iteration 0 performs at most `maxIterations` iterations; in particular,
with `maxIterations = 3` and the unconditional self-loop `A→A`, the run
stops after exactly 3 iterations with a trailing warning entry and no
escaping failure. -/
theorem C9_terminates_bounded :
    (∀ (tools : Tools) (nodes : Nodes) (edges : Edges) (ce : CondEdges)
        fuel it cur st log st2 log2 n2 it2,
      runAux tools nodes edges ce fuel it cur st log = .ok (st2, log2, n2, it2) →
      it ≤ it2 ∧ it2 ≤ it + fuel) ∧
    run_workflow noTools nodesSkipA edgesSelfLoop noCondEdges [] 3 =
      .ok ([], [.entry 2 "A" (.skipped "No function defined"),
        .entry 3 "A" (.skipped "No function defined"), .warning]) ∧
    runAux noTools nodesSkipA edgesSelfLoop noCondEdges 3 0 "START" [] [] =
      .ok ([], [.entry 2 "A" (.skipped "No function defined"),
        .entry 3 "A" (.skipped "No function defined")], "A", 3) :=
  ⟨runAux_iter_bound, rfl, rfl⟩

/-- Witness for C9: the bound applied to the concrete self-loop run —
its exit iteration 3 lies between 0 and 0 + 3. -/
theorem C9_witness : 0 ≤ 3 ∧ 3 ≤ 0 + 3 :=
  C9_terminates_bounded.1 noTools nodesSkipA edgesSelfLoop noCondEdges 3 0 "START"
    [] [] []
    [.entry 2 "A" (.skipped "No function defined"),
     .entry 3 "A" (.skipped "No function defined")] "A" 3 rfl

/-- C10: the run never mutates the caller's `initial_state` dict: every
merge is applied to the internal copy made by
`state = initial_state.copy()`, so in the mutation-aware model the
caller's dict after the run holds exactly its original entries, and the
returned result agrees with the pure `run_workflow`. -/
theorem C10_initial_state_not_mutated (tools : Tools) (nodes : Nodes)
    (edges : Edges) (ce : CondEdges) (init : St) (M : Nat) :
    (run_workflow_mut tools nodes edges ce init M).1 = init ∧
    (run_workflow_mut tools nodes edges ce init M).2 =
      run_workflow tools nodes edges ce init M := by
  unfold run_workflow_mut run_workflow
  rw [runAuxMut_eq]
  cases hr : runAux tools nodes edges ce M 0 "START" init [] with
  | error msg => exact ⟨rfl, rfl⟩
  | ok out =>
    rcases out with ⟨st2, log2, n2, it2⟩
    exact ⟨rfl, rfl⟩

end WorkflowEngine
